import Mathlib

/-!
The moonlisp driver `main.cpp`.

A shallow embedding of `source/main.cpp` of the moonlisp repository: the
debug printers (`get_string`, `indent`, `viewAST`, `printByteCode`,
`printArgs`) and the driver `main`, followed by the properties proved about
them.

Conventions of the embedding.

* Text written to a `std::ostream` is the `String` returned by the function.
* An `int` is an `Int`; the result of `int` arithmetic is reduced to 32 bits
  in two's complement (`wrapInt`), as the compiled code computes it.  An
  exception that leaves a function is part of its result.
* The loop counter `int i` of the listing loop is a natural number: it
  counts the instructions already listed.
* `std::to_string` on `int` and `size_t` is the decimal rendering
  `toString` of `Int` and `Nat`; on `double` it is the `%f` rendering
  `to_string`.
* The modules `moonlisp.lexer`, `moonlisp.parser` and `moonlisp.compiler`
  are imported by `main.cpp` but are not part of the sources at hand.  `main`
  takes the pipeline as a parameter; a model of the three stages written from
  the specification is given separately and marked as such.
-/

namespace Moonlisp

/-! ## Data model -/

/-- Modelled from the spec: the declaration of `moonlisp::ast::NodeType`
is in the missing module `moonlisp.ast`; its five tags are those of section
3 of the specification, which are the five cases of the switch in
`get_string`. -/
inductive NodeType where
  | FLOAT
  | NUMBER
  | STRING
  | NAME
  | DOT
  deriving DecidableEq

/-- Modelled from the spec: the declaration of `moonlisp::ast::Node` is in
the missing module `moonlisp.ast`; section 3 of the specification gives its
three variants, and `viewAST` reads the fields `type` and `value` of an Atom
and `elements` of a List and of a Pair. -/
inductive Node where
  | Atom (type : NodeType) (value : String)
  | List (elements : List Node)
  | Pair (elements : List Node)

/-- Modelled from the spec: the declaration of `moonlisp::ByteCode` is in
a missing module; its ten opcodes are those of section 3 of the
specification, which are the ten cases of the switch in `printByteCode`. -/
inductive ByteCode where
  | NOP
  | POP
  | PUSH_VALUE
  | PUSH_VARIABLE
  | MAKE_LIST
  | MAKE_PAIR
  | CALL
  | JUMP
  | JUMP_IF_FALSE
  | HALT
  deriving DecidableEq

/-- A value of the C++ type `double` (IEEE-754 binary64): a finite value
`± mantissa * 2 ^ exponent` (a zero has mantissa 0 and keeps its sign), an
infinity, or a NaN with its sign bit. -/
inductive Double where
  | finite (negative : Bool) (mantissa : Nat) (exponent : Int)
  | infinity (negative : Bool)
  | nan (negative : Bool)
  deriving DecidableEq

/-- The payload `std::variant<std::string, double, int, size_t>` of an
instruction operand, as the signature of `printArgs` spells it. -/
inductive Operand where
  | text (m : String)
  | float (m : Double)
  | int (m : Int)
  | size (m : Nat)
  deriving DecidableEq

/-- Modelled from the spec: the declaration of the instruction record is
in a missing module; `main` reads its fields `op` and `operand`, the opcode
and the optional operand of section 3 of the specification. -/
structure Instruction where
  op : ByteCode
  operand : Option Operand
  deriving DecidableEq

/-! ## Printers -/

/-- The function `get_string(moonlisp::ast::NodeType)`. -/
def get_string : NodeType → String
  | .FLOAT => "FLOAT"
  | .NUMBER => "NUMBER"
  | .STRING => "STRING"
  | .NAME => "NAME"
  | .DOT => "DOT"

/-- The value an `int` expression takes when its mathematical result is
`x`: the result reduced modulo `2 ^ 32` into the range of `int`. -/
def wrapInt (x : Int) : Int := (x + 2147483648) % 4294967296 - 2147483648

/-- The function `indent`: `std::string(depth * 2, ' ')`.  The product is
computed in `int`; converted to the `size_t` count of the constructor, a
negative product exceeds `max_size()` and the constructor throws
`std::length_error`, which is the result `none`. -/
def indent (depth : Int) : Option String :=
  if wrapInt (depth * 2) < 0 then none
  else some (String.mk (List.replicate (wrapInt (depth * 2)).toNat ' '))

/-- How a call that writes to a stream ends: it returns, or an exception
leaves it; `text` is what it has written to the stream by then. -/
inductive Outcome where
  | returned (text : String)
  | threw (text : String)
  deriving DecidableEq

/-- The text a call has written to the stream. -/
def Outcome.text : Outcome → String
  | .returned text => text
  | .threw text => text

mutual
/-- The function `viewAST`: what it writes to `os` for `node` at `depth`,
and whether it returns.  `indent(depth)` is evaluated before anything is
written, and again before the closing delimiter of a group. -/
def viewAST : Node → Int → Outcome
  | .Atom type value, depth =>
      match indent depth with
      | none => .threw ""
      | some ind => .returned (ind ++ (get_string type ++ " : " ++ value ++ "\n"))
  | .List elements, depth =>
      match indent depth with
      | none => .threw ""
      | some ind =>
          match viewElements elements depth with
          | .threw text => .threw (ind ++ ("(\n" ++ text))
          | .returned text =>
              match indent depth with
              | none => .threw (ind ++ ("(\n" ++ text))
              | some close => .returned (ind ++ ("(\n" ++ text ++ close ++ ")\n"))
  | .Pair elements, depth =>
      match indent depth with
      | none => .threw ""
      | some ind =>
          match viewElements elements depth with
          | .threw text => .threw (ind ++ ("[\n" ++ text))
          | .returned text =>
              match indent depth with
              | none => .threw (ind ++ ("[\n" ++ text))
              | some close => .returned (ind ++ ("[\n" ++ text ++ close ++ "]\n"))
/-- The loop `for (const auto &e : arg.elements) viewAST(e, depth + 1, os)`:
`depth + 1` is computed in `int`, and an exception from an element ends the
loop. -/
def viewElements : List Node → Int → Outcome
  | [], _ => .returned ""
  | e :: rest, depth =>
      match viewAST e (wrapInt (depth + 1)) with
      | .threw text => .threw text
      | .returned text =>
          match viewElements rest depth with
          | .threw more => .threw (text ++ more)
          | .returned more => .returned (text ++ more)
end

/-- The function `printByteCode`: `NOP` breaks out of the switch and reaches
the final `return "ERROR"`. -/
def printByteCode : ByteCode → String
  | .NOP => "ERROR"
  | .POP => "POP"
  | .PUSH_VALUE => "PUSH_VALUE"
  | .PUSH_VARIABLE => "PUSH_VARIABLE"
  | .MAKE_LIST => "MAKE_LIST"
  | .MAKE_PAIR => "MAKE_PAIR"
  | .CALL => "CALL"
  | .JUMP => "JUMP"
  | .JUMP_IF_FALSE => "JUMP_IF_FALSE"
  | .HALT => "HALT"

/-- The quotient of `n` by `d` rounded to the nearest natural number, a tie
going to the even one. -/
def roundDiv (n d : Nat) : Nat :=
  if 2 * (n % d) < d then n / d
  else if d < 2 * (n % d) then n / d + 1
  else if (n / d) % 2 = 0 then n / d else n / d + 1

/-- The overload `std::to_string(double)`, which the C++ standard defines as
`sprintf` with the format `%f`: the sign, the integer part in decimal, a
point and six decimals, the exact value being rounded to six decimals (to
nearest, ties to even); `inf` and `nan`, signed, for the values that are not
finite. -/
def to_string : Double → String
  | .nan negative => if negative then "-nan" else "nan"
  | .infinity negative => if negative then "-inf" else "inf"
  | .finite negative mantissa exponent =>
      let millionths :=
        if 0 ≤ exponent then mantissa * 2 ^ exponent.toNat * 1000000
        else roundDiv (mantissa * 1000000) (2 ^ (-exponent).toNat)
      let decimals := (toString (millionths % 1000000)).data
      (if negative then "-" else "") ++ toString (millionths / 1000000) ++ "."
        ++ String.mk (List.replicate (6 - decimals.length) '0' ++ decimals)

/-- The function `printArgs`. -/
def printArgs : Option Operand → String
  | none => "nullptr"
  | some (.float m) => to_string m
  | some (.int m) => toString m
  | some (.size m) => toString m
  | some (.text m) => m

/-! ## The driver -/

/-- What the try block of `main` can catch, in the order of its handlers:
the three stage errors (with the diagnostic their `show()` renders; the
classes are declared in the missing module `moonlisp.exception`), any other
`std::exception` (with `what()`), and anything else. -/
inductive PipelineError where
  | LexerError (diagnostic : String)
  | ParserError (diagnostic : String)
  | CompilerError (diagnostic : String)
  | exception (what : String)
  | unknown
  deriving DecidableEq

/-- The observable behaviour of one execution of `main`. -/
structure Run where
  /-- Text written to `std::cout`. -/
  cout : String
  /-- Text written to `std::cerr`. -/
  cerr : String
  /-- The stage error whose `show()` was called, if any. -/
  shown : Option PipelineError
  /-- The text the `Lexer` was constructed from, if it was constructed. -/
  lexerSource : Option String
  /-- The exit status. -/
  status : Nat

/-- The loop `while (std::getline(std::cin, line))` of `main`: `lines` are
the lines `std::getline` delivers, `input_code` the text collected so far. -/
def readSource : List String → String → String
  | [], input_code => input_code
  | line :: rest, input_code =>
      if line = "EOF" then input_code
      else readSource rest (input_code ++ (line ++ "\n"))

/-- The listing loop `for (int i = 0; i < m.size(); ++i)` of `main`, from
index `i` on, where `rest` holds `m[i], m[i+1], ...`; the result is the text
written to `std::cout`. -/
def printLoop : Nat → List Instruction → String
  | _, [] => ""
  | i, ins :: rest =>
      (toString i ++ " : " ++ printByteCode ins.op ++ " Args: "
        ++ printArgs ins.operand ++ "\n") ++ printLoop (i + 1) rest

/-- The prompt `main` prints first. -/
def promptText : String := "请输入 Moonlisp 代码 (输入 EOF 结束):\n"

/-- The echo of the collected source that `main` prints before compiling. -/
def echoText (input_code : String) : String :=
  "--- 输入的代码 ---\n" ++ input_code ++ "--- 结束 ---\n"

/-- The function `main`.  `pipeline` stands for the three constructor calls
and `getInstructions()` of the try block: it either returns the instruction
sequence or raises one of the errors the handlers distinguish. -/
def main (pipeline : String → Except PipelineError (List Instruction))
    (stdin : List String) : Run :=
  let input_code := readSource stdin ""
  if input_code.isEmpty then
    { cout := promptText, cerr := "没有输入代码。\n", shown := none,
      lexerSource := none, status := 1 }
  else
    let out := promptText ++ echoText input_code
    match pipeline input_code with
    | .ok m =>
        { cout := out ++ printLoop 0 m, cerr := "", shown := none,
          lexerSource := some input_code, status := 0 }
    | .error (.exception what) =>
        { cout := out, cerr := "未捕获的标准异常: " ++ what ++ "\n", shown := none,
          lexerSource := some input_code, status := 1 }
    | .error .unknown =>
        { cout := out, cerr := "未捕获的未知异常!\n", shown := none,
          lexerSource := some input_code, status := 1 }
    | .error e =>
        { cout := out, cerr := "", shown := some e,
          lexerSource := some input_code, status := 1 }

/-! ## The compilation pipeline, modelled from the specification

`main.cpp` imports the Lexer, the Parser and the Compiler from modules that
are not among the sources at hand.  The definitions of this section are
written from the specification (sections 3, 4 and 8).  Where the
specification leaves a policy open, the choice made is stated in the doc
comment of the definition that makes it.
-/

/-- Modelled from the spec: the token kinds of the missing Lexer module
(section 3, Token). -/
inductive TokenKind where
  | NUMBER
  | NAME
  | STRING
  | SYMBOL
  | END_OF_INPUT
  deriving DecidableEq

/-- Modelled from the spec: a token of the missing Lexer module: its kind,
its text and the offset of its first character (section 3, Token).  The text
of a STRING token is the text between the quotes with escapes resolved. -/
structure Token where
  kind : TokenKind
  text : String
  position : Nat
  deriving DecidableEq

/-- Modelled from the spec: the scan state of the missing Lexer: the unread
characters and the offset of the first of them. -/
structure Lexer where
  rest : List Char
  position : Nat
  deriving DecidableEq

/-- Modelled from the spec: the reserved punctuation of the missing Lexer
(section 4.1): parentheses, brackets and the dot separator. -/
def isReserved (c : Char) : Bool :=
  c == '(' || c == ')' || c == '[' || c == ']' || c == '.'

/-- Modelled from the spec: the characters of a NAME run of the missing
Lexer: anything printable that is not whitespace, reserved punctuation or a
quote (section 4.1, "an identifier/operator run not otherwise classified"). -/
def isNameChar (c : Char) : Bool :=
  !c.isWhitespace && !isReserved c && c != '"' && decide (32 < c.toNat)

/-- Modelled from the spec: the whitespace skipping of the missing
`next_token` (section 4.1).  The specification names comments without giving
their syntax, so only whitespace is skipped. -/
def skipWhitespace : List Char → Nat → Lexer
  | [], position => ⟨[], position⟩
  | c :: rest, position =>
      if c.isWhitespace then skipWhitespace rest (position + 1) else ⟨c :: rest, position⟩

/-- Modelled from the spec: the longest run of characters satisfying `p`,
with the characters that follow it. -/
def scanRun (p : Char → Bool) : List Char → List Char × List Char
  | [] => ([], [])
  | c :: rest =>
      if p c then ((scanRun p rest).1.cons c, (scanRun p rest).2) else ([], c :: rest)

/-- Modelled from the spec: the IN_STRING state of the missing Lexer
(section 4.1): reads up to the closing quote, a backslash escaping the
character after it; `none` when the input ends first.  The result is the
text read, the number of characters consumed and the unread characters. -/
def scanString : List Char → Option (List Char × Nat × List Char)
  | [] => none
  | '"' :: rest => some ([], 1, rest)
  | '\\' :: c :: rest =>
      match scanString rest with
      | some (text, n, unread) => some (c :: text, n + 2, unread)
      | none => none
  | c :: rest =>
      match scanString rest with
      | some (text, n, unread) => some (c :: text, n + 1, unread)
      | none => none

/-- Modelled from the spec: `next_token` of the missing Lexer (section 4.1).
A NUMBER is a run of digits, with one decimal point when digits follow it; a
STRING is a quoted run; a SYMBOL is one reserved punctuation character; a
NAME is a run of name characters; END_OF_INPUT is returned at the end of the
input and again on every later call.  An unterminated string and a character
that can begin no token are lexical errors carrying the offending offset. -/
def next_token (lexer : Lexer) : Except PipelineError (Token × Lexer) :=
  match skipWhitespace lexer.rest lexer.position with
  | ⟨[], position⟩ => .ok (⟨.END_OF_INPUT, "", position⟩, ⟨[], position⟩)
  | ⟨c :: rest, position⟩ =>
      if c.isDigit then
        let whole := scanRun Char.isDigit (c :: rest)
        match whole.2 with
        | '.' :: d :: after =>
            if d.isDigit then
              let fraction := scanRun Char.isDigit (d :: after)
              let text := whole.1 ++ '.' :: fraction.1
              .ok (⟨.NUMBER, String.mk text, position⟩, ⟨fraction.2, position + text.length⟩)
            else
              .ok (⟨.NUMBER, String.mk whole.1, position⟩,
                ⟨whole.2, position + whole.1.length⟩)
        | _ =>
            .ok (⟨.NUMBER, String.mk whole.1, position⟩, ⟨whole.2, position + whole.1.length⟩)
      else if c == '"' then
        match scanString rest with
        | some (text, n, unread) =>
            .ok (⟨.STRING, String.mk text, position⟩, ⟨unread, position + 1 + n⟩)
        | none => .error (.LexerError ("unterminated string at " ++ toString position))
      else if isReserved c then
        .ok (⟨.SYMBOL, String.mk [c], position⟩, ⟨rest, position + 1⟩)
      else if isNameChar c then
        let name := scanRun isNameChar (c :: rest)
        .ok (⟨.NAME, String.mk name.1, position⟩, ⟨name.2, position + name.1.length⟩)
      else .error (.LexerError ("unexpected character at " ++ toString position))

/-- Modelled from the spec: the token stream the missing Lexer produces when
pulled until END_OF_INPUT (section 8), at most `fuel` tokens long. -/
def tokenStream : Nat → Lexer → Except PipelineError (List Token)
  | 0, _ => .ok []
  | fuel + 1, lexer =>
      match next_token lexer with
      | .error e => .error e
      | .ok (token, lexer1) =>
          if token.kind = .END_OF_INPUT then .ok [token]
          else
            match tokenStream fuel lexer1 with
            | .error e => .error e
            | .ok tokens => .ok (token :: tokens)

/-- Modelled from the spec: the tokens of a source text, pulled from the
Lexer until END_OF_INPUT. -/
def tokens (source : String) : Except PipelineError (List Token) :=
  tokenStream (source.data.length + 1) ⟨source.data, 0⟩

/-- Modelled from the spec: whether a node is the DOT separator. -/
def isDot : Node → Bool
  | .Atom .DOT _ => true
  | _ => false

/-- Modelled from the spec: the end of a group in the missing Parser
(section 4.2): a group with a standalone DOT child is a Pair and must have
exactly one form on each side of the dot (the strict two-element rule of
section 9); any other group is a List. -/
def finishGroup (children : List Node) (position : Nat) : Except PipelineError Node :=
  if children.any isDot then
    match children with
    | [a, .Atom .DOT _, b] =>
        if isDot a || isDot b then
          .error (.ParserError ("misplaced dot in group at " ++ toString position))
        else .ok (.Pair [a, b])
    | _ => .error (.ParserError ("wrong pair arity in group at " ++ toString position))
  else .ok (.List children)

/-- Modelled from the spec: the closing symbol that matches an opening
grouping symbol, if the text is one. -/
def closingOf (text : String) : Option String :=
  if text = "(" then some ")" else if text = "[" then some "]" else none

/-- Modelled from the spec: the atom the missing Parser wraps a NUMBER token
in (section 3): FLOAT for a literal with a decimal point, NUMBER otherwise. -/
def numberAtom (text : String) : Node :=
  if text.data.contains '.' then .Atom .FLOAT text else .Atom .NUMBER text

mutual
/-- Modelled from the spec: one form of the missing recursive-descent Parser
(section 4.2), from its first token `token`, already pulled.  `fuel` bounds
the number of tokens and the nesting depth (the defensive bound of section
5). -/
def parseForm : Nat → Token → Lexer → Except PipelineError (Node × Lexer)
  | 0, token, _ =>
      .error (.ParserError ("input too deeply nested at " ++ toString token.position))
  | fuel + 1, token, lexer =>
      match token.kind with
      | .NUMBER => .ok (numberAtom token.text, lexer)
      | .STRING => .ok (.Atom .STRING token.text, lexer)
      | .NAME => .ok (.Atom .NAME token.text, lexer)
      | .END_OF_INPUT =>
          .error (.ParserError ("unexpected end of input at " ++ toString token.position))
      | .SYMBOL =>
          match closingOf token.text with
          | none => .error (.ParserError ("unexpected symbol at " ++ toString token.position))
          | some closing =>
              match parseGroup fuel closing token.position [] lexer with
              | .error e => .error e
              | .ok (children, lexer1) =>
                  match finishGroup children token.position with
                  | .error e => .error e
                  | .ok node => .ok (node, lexer1)
/-- Modelled from the spec: the children of a group of the missing Parser,
up to the closing symbol `closing`; `done` holds the children read so far,
last first. -/
def parseGroup : Nat → String → Nat → List Node → Lexer
    → Except PipelineError (List Node × Lexer)
  | 0, _, opened, _, _ =>
      .error (.ParserError ("input too deeply nested at " ++ toString opened))
  | fuel + 1, closing, opened, done, lexer =>
      match next_token lexer with
      | .error e => .error e
      | .ok (token, lexer1) =>
          if token.kind = .END_OF_INPUT then
            .error (.ParserError ("unterminated group opened at " ++ toString opened))
          else if token.kind = .SYMBOL ∧ token.text = closing then
            .ok (done.reverse, lexer1)
          else if token.kind = .SYMBOL ∧ token.text = "." then
            parseGroup fuel closing opened (.Atom .DOT "." :: done) lexer1
          else
            match parseForm fuel token lexer1 with
            | .error e => .error e
            | .ok (node, lexer2) => parseGroup fuel closing opened (node :: done) lexer2
end

/-- Modelled from the spec: the top level of the missing Parser (section
4.2): forms are read until END_OF_INPUT.  The canonical top-level shape is
the sequence of the top-level forms, in order. -/
def parseProgram : Nat → List Node → Lexer → Except PipelineError (List Node)
  | 0, _, lexer =>
      .error (.ParserError ("input too large at " ++ toString lexer.position))
  | fuel + 1, done, lexer =>
      match next_token lexer with
      | .error e => .error e
      | .ok (token, lexer1) =>
          if token.kind = .END_OF_INPUT then .ok done.reverse
          else
            match parseForm fuel token lexer1 with
            | .error e => .error e
            | .ok (node, lexer2) => parseProgram fuel (node :: done) lexer2

/-- Modelled from the spec: `parse()` of the missing Parser on a source
text; every token consumes at least one character, so the length of the
text bounds the work. -/
def parse (source : String) : Except PipelineError (List Node) :=
  parseProgram (source.data.length + 1) [] ⟨source.data, 0⟩

/-- Modelled from the spec: the state of the missing Compiler (section 4.3
and the worklist of section 9): the instructions emitted so far and the
addresses of the jumps whose target is not yet known. -/
structure CompilerState where
  code : List Instruction
  pending : List Nat

/-- Modelled from the spec: emission of one instruction at the end of the
sequence; its address is the length of the sequence before. -/
def emit (st : CompilerState) (op : ByteCode) (operand : Option Operand) : CompilerState :=
  { st with code := st.code ++ [⟨op, operand⟩] }

/-- Modelled from the spec: emission of a jump with a placeholder target
(an absent operand); its address is recorded as unresolved. -/
def emitJump (st : CompilerState) (op : ByteCode) : CompilerState :=
  { code := st.code ++ [⟨op, none⟩], pending := st.code.length :: st.pending }

/-- Modelled from the spec: the instruction at `address` receives the
target `target` as its operand. -/
def setTarget : List Instruction → Nat → Nat → List Instruction
  | [], _, _ => []
  | ins :: rest, 0, target => { ins with operand := some (.size target) } :: rest
  | ins :: rest, address + 1, target => ins :: setTarget rest address target

/-- Modelled from the spec: backpatching: the jump at `address` is given
the index of the next instruction to be emitted as its target and leaves the
worklist. -/
def patch (st : CompilerState) (address : Nat) : CompilerState :=
  { code := setTarget st.code address st.code.length,
    pending := st.pending.erase address }

/-- Modelled from the spec: the value of a run of decimal digits. -/
def decimalValue (digits : List Char) : Nat :=
  digits.foldl (fun n c => 10 * n + (c.toNat - '0'.toNat)) 0

/-- Modelled from the spec: the `double` nearest to the positive rational
`num / den` (to nearest, ties to even), as the conversion of a decimal
literal delivers it: 53 significant bits, subnormal below `2 ^ -1022`,
infinite from `2 ^ 1024`. -/
def nearestDouble (num den : Nat) : Double :=
  if num = 0 then .finite false 0 0
  else
    let scale (e : Int) : Nat × Nat :=
      if 0 ≤ e then (num, den * 2 ^ e.toNat) else (num * 2 ^ (-e).toNat, den)
    let e0 : Int := (Nat.log2 num : Int) - (Nat.log2 den : Int) - 52
    let e1 : Int := if (scale e0).1 / (scale e0).2 < 2 ^ 52 then e0 - 1 else e0
    let e2 : Int := max e1 (-1074)
    let m := roundDiv (scale e2).1 (scale e2).2
    let e3 : Int := if m = 2 ^ 53 then e2 + 1 else e2
    let m3 := if m = 2 ^ 53 then 2 ^ 52 else m
    if 971 < e3 then .infinity false else .finite false m3 e3

/-- Modelled from the spec: the floating-point value of a literal with a
decimal point. -/
def floatValue (text : List Char) : Double :=
  let whole := (scanRun Char.isDigit text).1
  let fraction := (scanRun Char.isDigit ((scanRun Char.isDigit text).2.drop 1)).1
  nearestDouble (decimalValue (whole ++ fraction)) (10 ^ fraction.length)

/-- Modelled from the spec: the three code-generation rules for a List
(section 4.3). -/
inductive ListShape where
  | literal
  | conditional
  | call
  deriving DecidableEq

/-- Modelled from the spec: which rule a List falls under (section 4.3).  A
List whose head is the name `if` is the conditional special form; a List
whose first child is a literal (NUMBER, FLOAT or STRING atom), and the empty
List, are literal-list constructions; every other List is a call. -/
def listShape : List Node → ListShape
  | [] => .literal
  | .Atom .NAME name :: _ => if name = "if" then .conditional else .call
  | .Atom .NUMBER _ :: _ => .literal
  | .Atom .FLOAT _ :: _ => .literal
  | .Atom .STRING _ :: _ => .literal
  | _ => .call

mutual
/-- Modelled from the spec: the code-generation rules of the missing
Compiler, by node shape (section 4.3).  In a call the callee is compiled
first, then the arguments left to right, and `CALL` carries the number of
arguments.  A conditional has a test, a "then" branch and an optional "else"
branch. -/
def compileNode : Node → CompilerState → Except PipelineError CompilerState
  | .Atom type value, st =>
      match type with
      | .NUMBER => .ok (emit st .PUSH_VALUE (some (.int (decimalValue value.data))))
      | .FLOAT => .ok (emit st .PUSH_VALUE (some (.float (floatValue value.data))))
      | .STRING => .ok (emit st .PUSH_VALUE (some (.text value)))
      | .NAME => .ok (emit st .PUSH_VARIABLE (some (.text value)))
      | .DOT => .error (.CompilerError "a dot outside a pair has no code-generation rule")
  | .Pair elements, st =>
      match elements with
      | [first, second] =>
          match compileNode first st with
          | .error e => .error e
          | .ok st1 =>
              match compileNode second st1 with
              | .error e => .error e
              | .ok st2 => .ok (emit st2 .MAKE_PAIR none)
      | _ => .error (.CompilerError "a pair must have exactly two children")
  | .List elements, st =>
      match listShape elements with
      | .literal =>
          match compileAll elements st with
          | .error e => .error e
          | .ok st1 => .ok (emit st1 .MAKE_LIST (some (.size elements.length)))
      | .call =>
          match compileAll elements st with
          | .error e => .error e
          | .ok st1 => .ok (emit st1 .CALL (some (.size (elements.length - 1))))
      | .conditional => compileConditional elements st
/-- Modelled from the spec: the conditional special form of the missing
Compiler (section 4.3), on the children of its List: the test is compiled,
`JUMP_IF_FALSE` is emitted with a placeholder, the "then" branch is
compiled, `JUMP` is emitted with a placeholder, the first jump is patched to
the index right after that `JUMP`, the "else" branch is compiled when there
is one, and the second jump is patched to the first index after the whole
conditional. -/
def compileConditional : List Node → CompilerState → Except PipelineError CompilerState
  | [_, test, thenBranch], st =>
      match compileNode test st with
      | .error e => .error e
      | .ok st1 =>
          match compileNode thenBranch (emitJump st1 .JUMP_IF_FALSE) with
          | .error e => .error e
          | .ok st2 =>
              .ok (patch (patch (emitJump st2 .JUMP) st1.code.length) st2.code.length)
  | [_, test, thenBranch, elseBranch], st =>
      match compileNode test st with
      | .error e => .error e
      | .ok st1 =>
          match compileNode thenBranch (emitJump st1 .JUMP_IF_FALSE) with
          | .error e => .error e
          | .ok st2 =>
              match compileNode elseBranch (patch (emitJump st2 .JUMP) st1.code.length) with
              | .error e => .error e
              | .ok st3 => .ok (patch st3 st2.code.length)
  | _, _ => .error (.CompilerError "a conditional takes two or three operands")
/-- Modelled from the spec: the children of a node compiled left to right. -/
def compileAll : List Node → CompilerState → Except PipelineError CompilerState
  | [], st => .ok st
  | e :: rest, st =>
      match compileNode e st with
      | .error e => .error e
      | .ok st1 => compileAll rest st1
end

/-- Modelled from the spec: the top-level forms compiled in order, with a
`POP` between two sequential forms (section 4.3). -/
def compileForms : List Node → CompilerState → Except PipelineError CompilerState
  | [], st => .ok st
  | [form], st => compileNode form st
  | form :: rest, st =>
      match compileNode form st with
      | .error e => .error e
      | .ok st1 => compileForms rest (emit st1 .POP none)

/-- Modelled from the spec: the missing Compiler on a program: the forms,
then `HALT`; a jump still unresolved at the end is a compilation error
(section 4.3). -/
def compileProgram (forms : List Node) : Except PipelineError (List Instruction) :=
  match compileForms forms ⟨[], []⟩ with
  | .error e => .error e
  | .ok st =>
      if (emit st .HALT none).pending = [] then .ok (emit st .HALT none).code
      else .error (.CompilerError "internal error: unresolved jump")

/-- Modelled from the spec: the pipeline source text, Lexer, Parser,
Compiler (section 2). -/
def compileSource (source : String) : Except PipelineError (List Instruction) :=
  match parse source with
  | .error e => .error e
  | .ok forms => compileProgram forms

/-! ## Specification-side definitions -/

/-- The text of listing line `k` for instruction `ins`, without its line
break, as the specification of the listing words it. -/
def listingLine (k : Nat) (ins : Instruction) : String :=
  toString k ++ " : " ++ printByteCode ins.op ++ " Args: " ++ printArgs ins.operand

/-- The decimal representation of a natural number: its base-ten digits,
most significant first, and `0` for zero. -/
def decimal (n : Nat) : String :=
  String.mk (if n = 0 then ['0'] else (Nat.digits 10 n).reverse.map Nat.digitChar)

/-- The decimal representation of an integer: a leading `-` for a negative
one, then the decimal representation of its magnitude. -/
def signedDecimal (n : Int) : String :=
  if n < 0 then "-" ++ decimal n.natAbs else decimal n.natAbs

/-- The lines that precede the first line equal to `EOF` (all lines when
there is none). -/
def beforeSentinel (lines : List String) : List String :=
  lines.takeWhile fun l => l ≠ "EOF"

/-- The source text the specification of `main` describes: every line
before the first line equal to `EOF`, each followed by a line break. -/
def sourceText (lines : List String) : String :=
  String.join ((beforeSentinel lines).map fun l => l ++ "\n")

/-- The instruction sequence of scenario A. -/
def scenarioA : List Instruction :=
  [⟨.PUSH_VARIABLE, some (.text "+")⟩, ⟨.PUSH_VALUE, some (.int 1)⟩,
   ⟨.PUSH_VALUE, some (.int 2)⟩, ⟨.CALL, some (.size 2)⟩, ⟨.HALT, none⟩]

/-- The indentation of depth `d`: `2 * d` spaces. -/
def spaces (d : Nat) : String := String.mk (List.replicate (d * 2) ' ')

mutual
/-- The text of a tree at depth `d`: what `viewAST` writes when no
indentation overflows. -/
def render : Node → Nat → String
  | .Atom type value, d =>
      spaces d ++ (get_string type ++ " : " ++ value ++ "\n")
  | .List elements, d =>
      spaces d ++ ("(\n" ++ renderElements elements d ++ spaces d ++ ")\n")
  | .Pair elements, d =>
      spaces d ++ ("[\n" ++ renderElements elements d ++ spaces d ++ "]\n")
/-- The text of the children of a group at depth `d`. -/
def renderElements : List Node → Nat → String
  | [], _ => ""
  | e :: rest, d => render e (d + 1) ++ renderElements rest d
end

mutual
/-- The nesting depth of a tree: the greatest number of groups around one
of its nodes. -/
def deepest : Node → Nat
  | .Atom _ _ => 0
  | .List elements => deepestAll elements
  | .Pair elements => deepestAll elements
/-- One more than the greatest nesting depth of the trees of a list, and 0
for the empty list. -/
def deepestAll : List Node → Nat
  | [] => 0
  | e :: rest => max (deepest e + 1) (deepestAll rest)
end

mutual
/-- No atom value of the tree contains a line break. -/
def noLineBreak : Node → Bool
  | .Atom _ value => !value.data.contains '\n'
  | .List elements => noLineBreakAll elements
  | .Pair elements => noLineBreakAll elements
/-- No atom value of any tree of the list contains a line break. -/
def noLineBreakAll : List Node → Bool
  | [] => true
  | e :: rest => noLineBreak e && noLineBreakAll rest
end

/-- Prepend `p` to every line of a text: `atStart` tells whether the next
character starts a line. -/
def prependLines (p : List Char) : Bool → List Char → List Char
  | _, [] => []
  | atStart, c :: cs =>
      (if atStart then p else []) ++ c :: prependLines p (c == '\n') cs

/-- A text is line-terminated when it is empty or ends with a line break. -/
def Terminated (text : List Char) : Prop := text = [] ∨ ∃ a, text = a ++ ['\n']

/-- The opcode is one of the two jumps. -/
def isJump (op : ByteCode) : Prop := op = .JUMP ∨ op = .JUMP_IF_FALSE

/-- The invariant of code generation: every jump emitted so far is either
unresolved (placeholder operand, address on the worklist) or carries a
target no greater than the number of instructions emitted. -/
def Resolving (st : CompilerState) : Prop :=
  ∀ (k : Nat) (ins : Instruction), st.code[k]? = some ins → isJump ins.op →
    (ins.operand = none ∧ k ∈ st.pending)
      ∨ ∃ target, ins.operand = some (.size target) ∧ target ≤ st.code.length

/-! ## Auxiliary lemmas -/

theorem foldl_append_string (l : List String) : ∀ a : String,
    l.foldl (fun r s => r ++ s) a = a ++ l.foldl (fun r s => r ++ s) "" := by
  induction l with
  | nil => intro a; simp
  | cons x xs ih =>
    intro a
    simp only [List.foldl_cons]
    rw [ih (a ++ x), ih ("" ++ x)]
    simp [String.append_assoc]

theorem join_cons (a : String) (l : List String) :
    String.join (a :: l) = a ++ String.join l := by
  simp only [String.join, List.foldl_cons]
  rw [foldl_append_string]
  simp

theorem join_nil : String.join [] = "" := rfl

theorem toDigitsCore_eq (fuel : Nat) : ∀ (n : Nat) (ds : List Char), 0 < n → n < fuel →
    Nat.toDigitsCore 10 fuel n ds = (Nat.digits 10 n).reverse.map Nat.digitChar ++ ds := by
  induction fuel with
  | zero => intro n ds _ h; omega
  | succ f ih =>
    intro n ds hn hf
    rw [Nat.toDigitsCore, Nat.digits_def' (by norm_num) hn]
    by_cases h0 : n / 10 = 0
    · simp [h0]
    · simp only [h0, if_false]
      rw [ih (n / 10) _ (Nat.pos_of_ne_zero h0) (by omega)]
      simp

theorem toString_nat_eq_decimal (n : Nat) : toString n = decimal n := by
  show Nat.repr n = decimal n
  by_cases h : n = 0
  · subst h; decide
  · simp only [decimal, h, if_false, Nat.repr, Nat.toDigits, List.asString]
    rw [toDigitsCore_eq _ _ _ (Nat.pos_of_ne_zero h) (by omega)]
    simp

theorem toString_int_eq_signedDecimal (n : Int) : toString n = signedDecimal n := by
  cases n with
  | ofNat m =>
    show toString m = _
    have : ¬ ((m : Int) < 0) := by omega
    simp [signedDecimal, this, toString_nat_eq_decimal]
  | negSucc m =>
    show "-" ++ toString (m + 1) = _
    have : Int.negSucc m < 0 := Int.negSucc_lt_zero m
    simp [signedDecimal, this, toString_nat_eq_decimal, Int.natAbs]

theorem digitChar_ne_E (d : Nat) (h : d < 10) : Nat.digitChar d ≠ 'E' := by
  interval_cases d <;> decide

theorem E_not_mem_decimal (n : Nat) : 'E' ∉ (decimal n).data := by
  unfold decimal
  by_cases h : n = 0
  · simp [h]
  · simp only [h, if_false, List.mem_map, List.mem_reverse, not_exists, not_and]
    intro d hd
    exact digitChar_ne_E d (Nat.digits_lt_base (by norm_num) hd)

theorem decimal_ne_ERROR (n : Nat) : decimal n ≠ "ERROR" := by
  intro h
  have := E_not_mem_decimal n
  rw [h] at this
  exact this (by decide)

theorem signedDecimal_ne_ERROR (n : Int) : signedDecimal n ≠ "ERROR" := by
  unfold signedDecimal
  split
  · intro h
    have h2 := congrArg String.data h
    rw [String.data_append] at h2
    exact absurd (congrArg List.head? h2) (by simp)
  · exact decimal_ne_ERROR _

theorem beforeSentinel_nil : beforeSentinel [] = [] := rfl

theorem beforeSentinel_sentinel (rest : List String) :
    beforeSentinel ("EOF" :: rest) = [] := by
  simp [beforeSentinel]

theorem beforeSentinel_cons (l : String) (rest : List String) (h : l ≠ "EOF") :
    beforeSentinel (l :: rest) = l :: beforeSentinel rest := by
  simp [beforeSentinel, h]

theorem beforeSentinel_append (lines rest : List String) :
    beforeSentinel (beforeSentinel lines ++ "EOF" :: rest) = beforeSentinel lines := by
  induction lines with
  | nil => simp [beforeSentinel_nil, beforeSentinel_sentinel]
  | cons l tl ih =>
    by_cases h : l = "EOF"
    · subst h
      simp [beforeSentinel_sentinel]
    · rw [beforeSentinel_cons l tl h, List.cons_append, beforeSentinel_cons l _ h, ih]

theorem beforeSentinel_idem (lines : List String) :
    beforeSentinel (beforeSentinel lines) = beforeSentinel lines := by
  induction lines with
  | nil => rfl
  | cons l tl ih =>
    by_cases h : l = "EOF"
    · subst h
      simp [beforeSentinel_sentinel, beforeSentinel_nil]
    · rw [beforeSentinel_cons l tl h, beforeSentinel_cons l _ h, ih]

theorem sourceText_eq_empty_iff (lines : List String) :
    sourceText lines = "" ↔ beforeSentinel lines = [] := by
  constructor
  · intro h
    cases hl : beforeSentinel lines with
    | nil => rfl
    | cons a tl =>
      exfalso
      have h2 := congrArg String.data h
      simp only [sourceText, hl, List.map_cons, join_cons, String.data_append] at h2
      have h3 := congrArg List.length h2
      simp at h3
  · intro h
    simp [sourceText, h, join_nil]

theorem readSource_eq (lines : List String) : ∀ acc,
    readSource lines acc = acc ++ sourceText lines := by
  induction lines with
  | nil => intro acc; simp [readSource, sourceText, beforeSentinel_nil, join_nil]
  | cons l rest ih =>
    intro acc
    by_cases h : l = "EOF"
    · subst h
      simp [readSource, sourceText, beforeSentinel_sentinel, join_nil]
    · have ih2 := ih (acc ++ (l ++ "\n"))
      simp only [sourceText] at ih2 ⊢
      simp [readSource, h, ih2, beforeSentinel_cons l rest h, join_cons,
        String.append_assoc]

theorem readSource_empty (lines : List String) : readSource lines "" = sourceText lines := by
  rw [readSource_eq]; simp

theorem main_of_empty (pipeline : String → Except PipelineError (List Instruction))
    (stdin : List String) (h : readSource stdin "" = "") :
    (main pipeline stdin).status = 1 ∧ (main pipeline stdin).lexerSource = none := by
  have he : (readSource stdin "").isEmpty = true := by
    rw [String.isEmpty_iff]; exact h
  simp [main, he]

theorem main_of_nonempty (pipeline : String → Except PipelineError (List Instruction))
    (stdin : List String) (h : readSource stdin "" ≠ "") :
    (main pipeline stdin).lexerSource = some (readSource stdin "") := by
  have hne : ¬ ((readSource stdin "").isEmpty = true) := by
    rw [String.isEmpty_iff]; exact h
  simp only [main, hne]
  cases hp : pipeline (readSource stdin "") with
  | ok m => rfl
  | error e => cases e <;> rfl

theorem printLoop_eq (m : List Instruction) : ∀ i,
    printLoop i m
      = String.join ((m.enumFrom i).map fun p => listingLine p.1 p.2 ++ "\n") := by
  induction m with
  | nil => intro i; rfl
  | cons ins rest ih =>
    intro i
    simp only [printLoop, List.enumFrom_cons, List.map_cons, join_cons, ih, listingLine]

/-! ### Rendering of trees -/

theorem spaces_data (d : Nat) : (spaces d).data = List.replicate (d * 2) ' ' := rfl

theorem render_atom_data (ty : NodeType) (v : String) (d : Nat) :
    (render (.Atom ty v) d).data
      = List.replicate (d * 2) ' ' ++ ((get_string ty).data ++ (' ' :: ':' :: ' ' :: (v.data ++ ['\n']))) := by
  simp [render, String.data_append, spaces_data]

theorem render_list_data (es : List Node) (d : Nat) :
    (render (.List es) d).data
      = List.replicate (d * 2) ' ' ++ ('(' :: '\n' :: ((renderElements es d).data
          ++ (List.replicate (d * 2) ' ' ++ [')', '\n']))) := by
  simp [render, String.data_append, spaces_data]

theorem render_pair_data (es : List Node) (d : Nat) :
    (render (.Pair es) d).data
      = List.replicate (d * 2) ' ' ++ ('[' :: '\n' :: ((renderElements es d).data
          ++ (List.replicate (d * 2) ' ' ++ [']', '\n']))) := by
  simp [render, String.data_append, spaces_data]

theorem renderElements_nil_data (d : Nat) : (renderElements [] d).data = [] := by
  simp [renderElements]

theorem renderElements_cons_data (e : Node) (rest : List Node) (d : Nat) :
    (renderElements (e :: rest) d).data = (render e (d + 1)).data ++ (renderElements rest d).data := by
  simp [renderElements, String.data_append]


/-- Two texts that agree and whose first parts hold no line break agree part by part. -/
theorem append_break_inj : ∀ (v1 v2 r1 r2 : List Char), '\n' ∉ v1 → '\n' ∉ v2 →
    v1 ++ '\n' :: r1 = v2 ++ '\n' :: r2 → v1 = v2 ∧ r1 = r2
  | [], [], _, _, _, _, h => by simpa using h
  | [], c :: v2, _, _, _, h2, h => by
      simp only [List.nil_append, List.cons_append, List.cons.injEq] at h
      exact absurd (h.1 ▸ List.mem_cons_self _ _) h2
  | c :: v1, [], _, _, h1, _, h => by
      simp only [List.nil_append, List.cons_append, List.cons.injEq] at h
      exact absurd (h.1 ▸ List.mem_cons_self _ _) h1
  | c1 :: v1, c2 :: v2, r1, r2, h1, h2, h => by
      simp only [List.cons_append, List.cons.injEq] at h
      have := append_break_inj v1 v2 r1 r2 (fun hm => h1 (List.mem_cons_of_mem _ hm))
        (fun hm => h2 (List.mem_cons_of_mem _ hm)) h.2
      simp [h.1, this.1, this.2]

theorem noLineBreak_atom {ty : NodeType} {v : String} (h : noLineBreak (.Atom ty v) = true) :
    '\n' ∉ v.data := by
  simpa [noLineBreak] using h

theorem replicate_succ_two (d : Nat) (c : Char) :
    List.replicate ((d + 1) * 2) c = List.replicate (d * 2) c ++ [c, c] := by
  have : (d + 1) * 2 = d * 2 + 2 := by ring
  rw [this, List.replicate_add]
  rfl

/-- Every rendering at depth `d + 1` starts with the indentation of depth `d` and a space. -/
theorem render_succ_head (t : Node) (d : Nat) :
    ∃ rest, (render t (d + 1)).data = List.replicate (d * 2) ' ' ++ ' ' :: rest := by
  cases t with
  | Atom ty v => exact ⟨_, by rw [render_atom_data, replicate_succ_two]; simp; rfl⟩
  | List es => exact ⟨_, by rw [render_list_data, replicate_succ_two]; simp; rfl⟩
  | Pair es => exact ⟨_, by rw [render_pair_data, replicate_succ_two]; simp; rfl⟩

mutual
theorem render_prefix_inj : ∀ (t1 t2 : Node) (d : Nat) (r1 r2 : List Char),
    noLineBreak t1 = true → noLineBreak t2 = true →
    (render t1 d).data ++ r1 = (render t2 d).data ++ r2 → t1 = t2 ∧ r1 = r2
  | .Atom ty1 v1, .Atom ty2 v2, d, r1, r2, h1, h2, h => by
      rw [render_atom_data, render_atom_data] at h
      simp only [List.append_assoc, List.append_cancel_left_eq] at h
      have hty : ty1 = ty2 := by
        cases ty1 <;> cases ty2 <;> first | rfl | (exfalso; revert h; simp [get_string])
      subst hty
      simp only [List.append_cancel_left_eq, List.cons_append, List.cons.injEq, true_and,
        List.nil_append] at h
      have := append_break_inj v1.data v2.data r1 r2 (noLineBreak_atom h1) (noLineBreak_atom h2)
        (by simpa using h)
      exact ⟨by rw [String.ext this.1], this.2⟩
  | .Atom ty1 v1, .List es2, d, r1, r2, _, _, h => by
      rw [render_atom_data, render_list_data] at h
      simp only [List.append_assoc, List.append_cancel_left_eq] at h
      exfalso; revert h; cases ty1 <;> simp [get_string]
  | .Atom ty1 v1, .Pair es2, d, r1, r2, _, _, h => by
      rw [render_atom_data, render_pair_data] at h
      simp only [List.append_assoc, List.append_cancel_left_eq] at h
      exfalso; revert h; cases ty1 <;> simp [get_string]
  | .List es1, .Atom ty2 v2, d, r1, r2, _, _, h => by
      rw [render_atom_data, render_list_data] at h
      simp only [List.append_assoc, List.append_cancel_left_eq] at h
      exfalso; revert h; cases ty2 <;> simp [get_string]
  | .Pair es1, .Atom ty2 v2, d, r1, r2, _, _, h => by
      rw [render_atom_data, render_pair_data] at h
      simp only [List.append_assoc, List.append_cancel_left_eq] at h
      exfalso; revert h; cases ty2 <;> simp [get_string]
  | .List es1, .Pair es2, d, r1, r2, _, _, h => by
      rw [render_list_data, render_pair_data] at h
      simp only [List.append_assoc, List.append_cancel_left_eq] at h
      exfalso; revert h; simp
  | .Pair es1, .List es2, d, r1, r2, _, _, h => by
      rw [render_list_data, render_pair_data] at h
      simp only [List.append_assoc, List.append_cancel_left_eq] at h
      exfalso; revert h; simp
  | .List es1, .List es2, d, r1, r2, h1, h2, h => by
      rw [render_list_data, render_list_data] at h
      simp only [List.append_assoc, List.append_cancel_left_eq, List.cons_append,
        List.cons.injEq, true_and, List.nil_append] at h
      have := renderElements_prefix_inj es1 es2 d ')' ')' ('\n' :: r1) ('\n' :: r2)
        (by simpa [noLineBreak] using h1) (by simpa [noLineBreak] using h2)
        (by decide) (by decide) h
      simp only [List.cons.injEq, true_and] at this
      exact ⟨by rw [this.1], this.2⟩
  | .Pair es1, .Pair es2, d, r1, r2, h1, h2, h => by
      rw [render_pair_data, render_pair_data] at h
      simp only [List.append_assoc, List.append_cancel_left_eq, List.cons_append,
        List.cons.injEq, true_and, List.nil_append] at h
      have := renderElements_prefix_inj es1 es2 d ']' ']' ('\n' :: r1) ('\n' :: r2)
        (by simpa [noLineBreak] using h1) (by simpa [noLineBreak] using h2)
        (by decide) (by decide) h
      simp only [List.cons.injEq, true_and] at this
      exact ⟨by rw [this.1], this.2⟩
theorem renderElements_prefix_inj : ∀ (es1 es2 : List Node) (d : Nat) (c1 c2 : Char)
    (r1 r2 : List Char), noLineBreakAll es1 = true → noLineBreakAll es2 = true →
    c1 ≠ ' ' → c2 ≠ ' ' →
    (renderElements es1 d).data ++ (List.replicate (d * 2) ' ' ++ c1 :: r1)
      = (renderElements es2 d).data ++ (List.replicate (d * 2) ' ' ++ c2 :: r2) →
    es1 = es2 ∧ c1 :: r1 = c2 :: r2
  | [], [], d, c1, c2, r1, r2, _, _, _, _, h => by
      simpa [renderElements_nil_data] using h
  | [], e :: rest, d, c1, c2, r1, r2, _, _, hc1, _, h => by
      obtain ⟨tl, htl⟩ := render_succ_head e d
      rw [renderElements_nil_data, renderElements_cons_data, htl] at h
      simp only [List.nil_append, List.append_assoc, List.append_cancel_left_eq,
        List.cons_append, List.cons.injEq] at h
      exact absurd h.1 hc1
  | e :: rest, [], d, c1, c2, r1, r2, _, _, _, hc2, h => by
      obtain ⟨tl, htl⟩ := render_succ_head e d
      rw [renderElements_nil_data, renderElements_cons_data, htl] at h
      simp only [List.nil_append, List.append_assoc, List.append_cancel_left_eq,
        List.cons_append, List.cons.injEq] at h
      exact absurd h.1.symm hc2
  | e1 :: rest1, e2 :: rest2, d, c1, c2, r1, r2, h1, h2, hc1, hc2, h => by
      rw [renderElements_cons_data, renderElements_cons_data, List.append_assoc,
        List.append_assoc] at h
      simp only [noLineBreakAll, Bool.and_eq_true] at h1 h2
      have hh := render_prefix_inj e1 e2 (d + 1) _ _ h1.1 h2.1 h
      have ht := renderElements_prefix_inj rest1 rest2 d c1 c2 r1 r2 h1.2 h2.2 hc1 hc2 hh.2
      exact ⟨by rw [hh.1, ht.1], ht.2⟩
end


theorem prependLines_append_break (p : List Char) : ∀ (a b : List Char) (s : Bool),
    prependLines p s (a ++ '\n' :: b)
      = prependLines p s (a ++ ['\n']) ++ prependLines p true b
  | [], b, s => by simp [prependLines]
  | c :: a, b, s => by
      simp [prependLines, prependLines_append_break p a b]

theorem prependLines_inside (p : List Char) : ∀ x : List Char, '\n' ∉ x →
    prependLines p false (x ++ ['\n']) = x ++ ['\n']
  | [], _ => by simp [prependLines]
  | c :: x, h => by
      have hc : c ≠ '\n' := fun e => h (e ▸ List.mem_cons_self _ _)
      have hx : '\n' ∉ x := fun hm => h (List.mem_cons_of_mem _ hm)
      have hb : (c == '\n') = false := by simp [hc]
      simp [prependLines, hb, prependLines_inside p x hx]

theorem prependLines_line (p x : List Char) (h : '\n' ∉ x) :
    prependLines p true (x ++ ['\n']) = p ++ (x ++ ['\n']) := by
  cases x with
  | nil => simp [prependLines]
  | cons c x =>
    have hc : c ≠ '\n' := fun e => h (e ▸ List.mem_cons_self _ _)
    have hx : '\n' ∉ x := fun hm => h (List.mem_cons_of_mem _ hm)
    have hb : (c == '\n') = false := by simp [hc]
    simp [prependLines, hb, prependLines_inside p x hx]

theorem prependLines_append (p a b : List Char) (h : Terminated a) :
    prependLines p true (a ++ b) = prependLines p true a ++ prependLines p true b := by
  rcases h with h | ⟨x, h⟩
  · subst h; simp [prependLines]
  · subst h
    rw [List.append_assoc, List.singleton_append, prependLines_append_break]

theorem Terminated.append {a b : List Char} (ha : Terminated a) (hb : Terminated b) :
    Terminated (a ++ b) := by
  rcases hb with hb | ⟨y, hb⟩
  · subst hb; simpa using ha
  · subst hb; exact Or.inr ⟨a ++ y, by simp⟩

theorem render_terminated (t : Node) (d : Nat) : Terminated (render t d).data := by
  cases t with
  | Atom ty v =>
    refine Or.inr ⟨List.replicate (d * 2) ' ' ++ ((get_string ty).data
      ++ (' ' :: ':' :: ' ' :: v.data)), ?_⟩
    rw [render_atom_data]; simp
  | List es =>
    refine Or.inr ⟨List.replicate (d * 2) ' ' ++ ('(' :: '\n' :: ((renderElements es d).data
          ++ (List.replicate (d * 2) ' ' ++ [')']))), ?_⟩
    rw [render_list_data]; simp
  | Pair es =>
    refine Or.inr ⟨List.replicate (d * 2) ' ' ++ ('[' :: '\n' :: ((renderElements es d).data
          ++ (List.replicate (d * 2) ' ' ++ [']']))), ?_⟩
    rw [render_pair_data]; simp

theorem renderElements_terminated : ∀ (es : List Node) (d : Nat),
    Terminated (renderElements es d).data
  | [], d => Or.inl (renderElements_nil_data d)
  | e :: rest, d => by
      rw [renderElements_cons_data]
      exact (render_terminated e (d + 1)).append (renderElements_terminated rest d)

theorem get_string_no_break (ty : NodeType) : '\n' ∉ (get_string ty).data := by
  cases ty <;> decide

theorem replicate_add_two (d k : Nat) (c : Char) :
    List.replicate ((d + k) * 2) c = List.replicate (k * 2) c ++ List.replicate (d * 2) c := by
  rw [← List.replicate_add]
  congr 1
  ring

theorem prependLines_open (p : List Char) (d : Nat) (c : Char) (hc : c ≠ '\n')
    (rest : List Char) :
    prependLines p true (List.replicate (d * 2) ' ' ++ (c :: '\n' :: rest))
      = p ++ (List.replicate (d * 2) ' ' ++ (c :: '\n' :: prependLines p true rest)) := by
  have h1 : List.replicate (d * 2) ' ' ++ (c :: '\n' :: rest)
      = (List.replicate (d * 2) ' ' ++ [c]) ++ '\n' :: rest := by simp
  have h2 : '\n' ∉ List.replicate (d * 2) ' ' ++ [c] := by
    simp [List.mem_replicate, hc.symm]
  rw [h1, prependLines_append_break, prependLines_line _ _ h2]
  simp

mutual
theorem render_shift : ∀ (t : Node) (d k : Nat), noLineBreak t = true →
    (render t (d + k)).data
      = prependLines (List.replicate (k * 2) ' ') true (render t d).data
  | .Atom ty v, d, k, h => by
      have hx : '\n' ∉ List.replicate (d * 2) ' ' ++ ((get_string ty).data
          ++ (' ' :: ':' :: ' ' :: v.data)) := by
        have := get_string_no_break ty
        have := noLineBreak_atom h
        simp [List.mem_replicate, *]
      have := prependLines_line (List.replicate (k * 2) ' ') _ hx
      rw [render_atom_data, render_atom_data, replicate_add_two]
      simp only [List.append_assoc, List.cons_append] at this ⊢
      rw [this]
  | .List es, d, k, h => by
      have he := renderElements_shift es d k (by simpa [noLineBreak] using h)
      rw [render_list_data, render_list_data, prependLines_open _ _ _ (by decide),
        prependLines_append _ _ _ (renderElements_terminated es d), ← he,
        prependLines_open _ _ _ (by decide), replicate_add_two]
      simp only [prependLines, List.append_assoc, List.cons_append, List.nil_append, List.append_nil]
  | .Pair es, d, k, h => by
      have he := renderElements_shift es d k (by simpa [noLineBreak] using h)
      rw [render_pair_data, render_pair_data, prependLines_open _ _ _ (by decide),
        prependLines_append _ _ _ (renderElements_terminated es d), ← he,
        prependLines_open _ _ _ (by decide), replicate_add_two]
      simp only [prependLines, List.append_assoc, List.cons_append, List.nil_append, List.append_nil]
theorem renderElements_shift : ∀ (es : List Node) (d k : Nat), noLineBreakAll es = true →
    (renderElements es (d + k)).data
      = prependLines (List.replicate (k * 2) ' ') true (renderElements es d).data
  | [], d, k, _ => by simp [renderElements_nil_data, prependLines]
  | e :: rest, d, k, h => by
      simp only [noLineBreakAll, Bool.and_eq_true] at h
      have h1 := render_shift e (d + 1) k h.1
      have h2 := renderElements_shift rest d k h.2
      rw [renderElements_cons_data, renderElements_cons_data,
        prependLines_append _ _ _ (render_terminated e (d + 1)), ← h1, ← h2]
      have : d + k + 1 = d + 1 + k := by omega
      rw [this]
end


/-! ### Code generation -/

theorem resolving_init : Resolving ⟨[], []⟩ := by
  intro k ins h
  simp at h

theorem getElem?_snoc {α : Type} (l : List α) (x y : α) (k : Nat)
    (h : (l ++ [x])[k]? = some y) : l[k]? = some y ∨ (k = l.length ∧ y = x) := by
  by_cases hk : k < l.length
  · left; rwa [List.getElem?_append_left hk] at h
  · right
    rw [List.getElem?_append_right (by omega)] at h
    have h0 : k - l.length = 0 := by
      by_contra hne
      obtain ⟨j, hj⟩ : ∃ j, k - l.length = j + 1 := ⟨k - l.length - 1, by omega⟩
      rw [hj] at h
      simp at h
    rw [h0] at h
    simp at h
    exact ⟨by omega, h.symm⟩

theorem resolving_emit (st : CompilerState) (op : ByteCode) (operand : Option Operand)
    (hop : ¬ isJump op) (h : Resolving st) : Resolving (emit st op operand) := by
  intro k ins hk hj
  rcases getElem?_snoc _ _ _ _ hk with h1 | ⟨_, h2⟩
  · rcases h k ins h1 hj with h3 | ⟨t, ht, hle⟩
    · exact Or.inl h3
    · exact Or.inr ⟨t, ht, by simp [emit]; omega⟩
  · subst h2
    exact absurd hj hop

theorem resolving_emitJump (st : CompilerState) (op : ByteCode)
    (h : Resolving st) : Resolving (emitJump st op) := by
  intro k ins hk hj
  rcases getElem?_snoc _ _ _ _ hk with h1 | ⟨h2, h3⟩
  · rcases h k ins h1 hj with ⟨h4, h5⟩ | ⟨t, ht, hle⟩
    · exact Or.inl ⟨h4, List.mem_cons_of_mem _ h5⟩
    · exact Or.inr ⟨t, ht, by simp [emitJump]; omega⟩
  · subst h3
    exact Or.inl ⟨rfl, by simp [emitJump, h2]⟩

theorem setTarget_length : ∀ (code : List Instruction) (address target : Nat),
    (setTarget code address target).length = code.length
  | [], _, _ => rfl
  | _ :: _, 0, _ => rfl
  | _ :: rest, address + 1, target => by
      simp [setTarget, setTarget_length rest address target]

theorem setTarget_getElem? : ∀ (code : List Instruction) (address target k : Nat)
    (ins : Instruction), (setTarget code address target)[k]? = some ins →
    (k ≠ address ∧ code[k]? = some ins)
      ∨ (k = address ∧ ∃ old, code[k]? = some old ∧ ins = { old with operand := some (.size target) })
  | [], _, _, _, _, h => by simp [setTarget] at h
  | old :: rest, 0, target, 0, ins, h => by
      simp [setTarget] at h
      exact Or.inr ⟨rfl, old, by simp, h.symm⟩
  | old :: rest, 0, target, k + 1, ins, h => by
      simp [setTarget] at h
      exact Or.inl ⟨by omega, by simpa using h⟩
  | old :: rest, address + 1, target, 0, ins, h => by
      simp [setTarget] at h
      exact Or.inl ⟨by omega, by simpa using h⟩
  | old :: rest, address + 1, target, k + 1, ins, h => by
      simp only [setTarget, List.getElem?_cons_succ] at h
      rcases setTarget_getElem? rest address target k ins h with ⟨h1, h2⟩ | ⟨h1, h2⟩
      · exact Or.inl ⟨by omega, by simpa using h2⟩
      · exact Or.inr ⟨by omega, by simpa using h2⟩

theorem resolving_patch (st : CompilerState) (address : Nat)
    (h : Resolving st) : Resolving (patch st address) := by
  intro k ins hk hj
  simp only [patch] at hk ⊢
  rw [setTarget_length]
  rcases setTarget_getElem? _ _ _ _ _ hk with ⟨h1, h2⟩ | ⟨_, old, _, h3⟩
  · rcases h k ins h2 hj with ⟨h4, h5⟩ | h6
    · exact Or.inl ⟨h4, (List.mem_erase_of_ne h1).mpr h5⟩
    · exact Or.inr h6
  · exact Or.inr ⟨st.code.length, by rw [h3], le_refl _⟩

mutual
theorem compileNode_resolving : ∀ (node : Node) (st st' : CompilerState),
    Resolving st → compileNode node st = .ok st' → Resolving st'
  | .Atom type value, st, st', h, hc => by
      cases type <;> simp [compileNode] at hc <;> subst hc <;>
        exact resolving_emit _ _ _ (by simp [isJump]) h
  | .Pair [], st, st', h, hc => by simp [compileNode] at hc
  | .Pair [_], st, st', h, hc => by simp [compileNode] at hc
  | .Pair (_ :: _ :: _ :: _), st, st', h, hc => by simp [compileNode] at hc
  | .Pair [first, second], st, st', h, hc => by
      simp only [compileNode] at hc
      cases h1 : compileNode first st with
      | error err => simp [h1] at hc
      | ok st1 =>
        simp only [h1] at hc
        cases h2 : compileNode second st1 with
        | error err => simp [h2] at hc
        | ok st2 =>
          simp only [h2, Except.ok.injEq] at hc
          subst hc
          exact resolving_emit _ _ _ (by simp [isJump])
            (compileNode_resolving second st1 st2 (compileNode_resolving first st st1 h h1) h2)
  | .List elements, st, st', h, hc => by
      simp only [compileNode] at hc
      cases hs : listShape elements with
      | literal =>
        simp only [hs] at hc
        cases h1 : compileAll elements st with
        | error err => simp [h1] at hc
        | ok st1 =>
          simp only [h1, Except.ok.injEq] at hc
          subst hc
          exact resolving_emit _ _ _ (by simp [isJump])
            (compileAll_resolving elements st st1 h h1)
      | call =>
        simp only [hs] at hc
        cases h1 : compileAll elements st with
        | error err => simp [h1] at hc
        | ok st1 =>
          simp only [h1, Except.ok.injEq] at hc
          subst hc
          exact resolving_emit _ _ _ (by simp [isJump])
            (compileAll_resolving elements st st1 h h1)
      | conditional =>
        simp only [hs] at hc
        exact compileConditional_resolving elements st st' h hc
theorem compileConditional_resolving : ∀ (nodes : List Node) (st st' : CompilerState),
    Resolving st → compileConditional nodes st = .ok st' → Resolving st'
  | [], st, st', h, hc => by simp [compileConditional] at hc
  | [_], st, st', h, hc => by simp [compileConditional] at hc
  | [_, _], st, st', h, hc => by simp [compileConditional] at hc
  | _ :: _ :: _ :: _ :: _ :: _, st, st', h, hc => by simp [compileConditional] at hc
  | [_, test, thenBranch], st, st', h, hc => by
      simp only [compileConditional] at hc
      cases h1 : compileNode test st with
      | error err => simp [h1] at hc
      | ok st1 =>
        simp only [h1] at hc
        cases h2 : compileNode thenBranch (emitJump st1 .JUMP_IF_FALSE) with
        | error err => simp [h2] at hc
        | ok st2 =>
          simp only [h2, Except.ok.injEq] at hc
          subst hc
          have r1 := compileNode_resolving test st st1 h h1
          have r2 := compileNode_resolving thenBranch _ st2 (resolving_emitJump _ _ r1) h2
          exact resolving_patch _ _ (resolving_patch _ _ (resolving_emitJump _ _ r2))
  | [_, test, thenBranch, elseBranch], st, st', h, hc => by
      simp only [compileConditional] at hc
      cases h1 : compileNode test st with
      | error err => simp [h1] at hc
      | ok st1 =>
        simp only [h1] at hc
        cases h2 : compileNode thenBranch (emitJump st1 .JUMP_IF_FALSE) with
        | error err => simp [h2] at hc
        | ok st2 =>
          simp only [h2] at hc
          cases h3 : compileNode elseBranch (patch (emitJump st2 .JUMP) st1.code.length) with
          | error err => simp [h3] at hc
          | ok st3 =>
            simp only [h3, Except.ok.injEq] at hc
            subst hc
            have r1 := compileNode_resolving test st st1 h h1
            have r2 := compileNode_resolving thenBranch _ st2
              (resolving_emitJump _ _ r1) h2
            have r3 := compileNode_resolving elseBranch _ st3
              (resolving_patch _ _ (resolving_emitJump _ _ r2)) h3
            exact resolving_patch _ _ r3
theorem compileAll_resolving : ∀ (nodes : List Node) (st st' : CompilerState),
    Resolving st → compileAll nodes st = .ok st' → Resolving st'
  | [], st, st', h, hc => by
      simp [compileAll] at hc
      exact hc ▸ h
  | e :: rest, st, st', h, hc => by
      simp only [compileAll] at hc
      cases h1 : compileNode e st with
      | error err => simp [h1] at hc
      | ok st1 =>
        simp only [h1] at hc
        exact compileAll_resolving rest st1 st' (compileNode_resolving e st st1 h h1) hc
end


theorem compileForms_resolving : ∀ (forms : List Node) (st st' : CompilerState),
    Resolving st → compileForms forms st = .ok st' → Resolving st'
  | [], st, st', h, hc => by
      simp [compileForms] at hc
      exact hc ▸ h
  | [form], st, st', h, hc => by
      simp only [compileForms] at hc
      exact compileNode_resolving form st st' h hc
  | form :: next :: rest, st, st', h, hc => by
      simp only [compileForms] at hc
      cases h1 : compileNode form st with
      | error err => simp [h1] at hc
      | ok st1 =>
        simp only [h1] at hc
        exact compileForms_resolving (next :: rest) _ st'
          (resolving_emit _ _ _ (by simp [isJump]) (compileNode_resolving form st st1 h h1)) hc

/-! ### Nesting -/

theorem indent_of_lt (d : Nat) (h : d < 1073741824) : indent (d : Int) = some (spaces d) := by
  have hw : wrapInt ((d : Int) * 2) = ((d * 2 : Nat) : Int) := by
    unfold wrapInt
    push_cast
    omega
  unfold indent
  rw [hw]
  have hneg : ¬ (((d * 2 : Nat) : Int) < 0) := by omega
  rw [if_neg hneg, Int.toNat_ofNat]
  rfl

theorem indent_of_ge (d : Nat) (h1 : 1073741824 ≤ d) (h2 : d < 2147483648) :
    indent (d : Int) = none := by
  have hw : wrapInt ((d : Int) * 2) < 0 := by
    unfold wrapInt
    omega
  unfold indent
  rw [if_pos hw]

theorem wrapInt_succ (d : Nat) (h : d < 1073741824) :
    wrapInt ((d : Int) + 1) = ((d + 1 : Nat) : Int) := by
  unfold wrapInt
  push_cast
  omega

mutual
theorem viewAST_of_bound : ∀ (t : Node) (d : Nat), d + deepest t < 1073741824 →
    viewAST t d = .returned (render t d)
  | .Atom type value, d => by
      intro h
      rw [viewAST, indent_of_lt d (by omega), render]
  | .List elements, d => by
      intro h
      have he : d + deepestAll elements < 1073741824 := by simpa [deepest] using h
      rw [viewAST, indent_of_lt d (by omega), viewElements_of_bound elements d he, render]
  | .Pair elements, d => by
      intro h
      have he : d + deepestAll elements < 1073741824 := by simpa [deepest] using h
      rw [viewAST, indent_of_lt d (by omega), viewElements_of_bound elements d he, render]
theorem viewElements_of_bound : ∀ (es : List Node) (d : Nat),
    d + deepestAll es < 1073741824 → viewElements es d = .returned (renderElements es d)
  | [], d => by
      intro _
      rw [viewElements, renderElements]
  | e :: rest, d => by
      intro h
      have h1 : d + 1 + deepest e < 1073741824 := by
        simp only [deepestAll] at h
        omega
      have h2 : d + deepestAll rest < 1073741824 := by
        simp only [deepestAll] at h
        omega
      rw [viewElements, wrapInt_succ d (by omega), viewAST_of_bound e (d + 1) h1,
        viewElements_of_bound rest d h2, renderElements]
end

mutual
theorem viewAST_returned : ∀ (t : Node) (d : Nat) (text : String), d < 2147483648 →
    viewAST t d = .returned text → d + deepest t < 1073741824
  | .Atom type value, d, text => by
      intro hd h
      by_cases hlt : d < 1073741824
      · simpa [deepest] using hlt
      · rw [viewAST, indent_of_ge d (by omega) hd] at h
        exact Outcome.noConfusion h
  | .List elements, d, text => by
      intro hd h
      by_cases hlt : d < 1073741824
      · rw [viewAST, indent_of_lt d hlt] at h
        cases hv : viewElements elements d with
        | threw inner =>
          rw [hv] at h
          exact Outcome.noConfusion h
        | returned inner =>
          simpa [deepest] using viewElements_returned elements d inner hlt hv
      · rw [viewAST, indent_of_ge d (by omega) hd] at h
        exact Outcome.noConfusion h
  | .Pair elements, d, text => by
      intro hd h
      by_cases hlt : d < 1073741824
      · rw [viewAST, indent_of_lt d hlt] at h
        cases hv : viewElements elements d with
        | threw inner =>
          rw [hv] at h
          exact Outcome.noConfusion h
        | returned inner =>
          simpa [deepest] using viewElements_returned elements d inner hlt hv
      · rw [viewAST, indent_of_ge d (by omega) hd] at h
        exact Outcome.noConfusion h
theorem viewElements_returned : ∀ (es : List Node) (d : Nat) (text : String),
    d < 1073741824 → viewElements es d = .returned text →
    d + deepestAll es < 1073741824
  | [], d, _ => by
      intro hd _
      simpa [deepestAll] using hd
  | e :: rest, d, text => by
      intro hd h
      rw [viewElements, wrapInt_succ d hd] at h
      cases hv : viewAST e ((d + 1 : Nat) : Int) with
      | threw first =>
        rw [hv] at h
        exact Outcome.noConfusion h
      | returned first =>
        rw [hv] at h
        cases hr : viewElements rest d with
        | threw more =>
          rw [hr] at h
          exact Outcome.noConfusion h
        | returned more =>
          have h1 := viewAST_returned e (d + 1) first (by omega) hv
          have h2 := viewElements_returned rest d more hd hr
          simp only [deepestAll]
          omega
end

theorem viewAST_returned_eq (t : Node) (d : Nat) (text : String) (hd : d < 2147483648)
    (h : viewAST t d = .returned text) : text = render t d := by
  have hb := viewAST_of_bound t d (viewAST_returned t d text hd h)
  rw [h] at hb
  exact Outcome.returned.inj hb

theorem viewAST_list_head (es : List Node) (d : Nat) (h : d < 1073741824) :
    ∃ rest, (viewAST (.List es) d).text.data
      = List.replicate (d * 2) ' ' ++ '(' :: '\n' :: rest := by
  rw [viewAST, indent_of_lt d h]
  cases viewElements es d with
  | threw inner => exact ⟨inner.data, by simp [Outcome.text, spaces]⟩
  | returned inner =>
    exact ⟨inner.data ++ (List.replicate (d * 2) ' ' ++ [')', '\n']), by
      simp [Outcome.text, spaces]⟩

theorem viewAST_pair_head (es : List Node) (d : Nat) (h : d < 1073741824) :
    ∃ rest, (viewAST (.Pair es) d).text.data
      = List.replicate (d * 2) ' ' ++ '[' :: '\n' :: rest := by
  rw [viewAST, indent_of_lt d h]
  cases viewElements es d with
  | threw inner => exact ⟨inner.data, by simp [Outcome.text, spaces]⟩
  | returned inner =>
    exact ⟨inner.data ++ (List.replicate (d * 2) ' ' ++ [']', '\n']), by
      simp [Outcome.text, spaces]⟩

theorem to_string_ne_ERROR (x : Double) : to_string x ≠ "ERROR" := by
  cases x with
  | nan negative => cases negative <;> decide
  | infinity negative => cases negative <;> decide
  | finite negative mantissa exponent =>
    intro h
    have hd := congrArg String.data h
    have hmem : '.' ∈ (to_string (.finite negative mantissa exponent)).data := by
      simp [to_string, String.data_append]
    rw [hd] at hmem
    exact absurd hmem (by decide)

/-! ## The printers of opcodes, operands and node types -/

/-- C10: `get_string` maps the five atom kinds `FLOAT`, `NUMBER`, `STRING`,
`NAME`, `DOT` to the strings of the same spelling; it is injective and never
returns `UNKNOWN`. -/
theorem get_string_nodeType :
    get_string .FLOAT = "FLOAT" ∧ get_string .NUMBER = "NUMBER"
      ∧ get_string .STRING = "STRING" ∧ get_string .NAME = "NAME"
      ∧ get_string .DOT = "DOT"
      ∧ Function.Injective get_string
      ∧ ∀ t, get_string t ≠ "UNKNOWN" := by
  refine ⟨rfl, rfl, rfl, rfl, rfl, ?_, ?_⟩
  · intro a b h
    cases a <;> cases b <;> first | rfl | exact absurd h (by decide)
  · intro t
    cases t <;> decide

/-- C5: `printByteCode` returns the mnemonic of each of the nine opcodes
other than `NOP`, returns `ERROR` for `NOP`, and so renders distinct opcodes
as distinct strings. -/
theorem printByteCode_total :
    printByteCode .POP = "POP" ∧ printByteCode .PUSH_VALUE = "PUSH_VALUE"
      ∧ printByteCode .PUSH_VARIABLE = "PUSH_VARIABLE"
      ∧ printByteCode .MAKE_LIST = "MAKE_LIST"
      ∧ printByteCode .MAKE_PAIR = "MAKE_PAIR" ∧ printByteCode .CALL = "CALL"
      ∧ printByteCode .JUMP = "JUMP"
      ∧ printByteCode .JUMP_IF_FALSE = "JUMP_IF_FALSE"
      ∧ printByteCode .HALT = "HALT" ∧ printByteCode .NOP = "ERROR"
      ∧ ∀ a b, a ≠ b → printByteCode a ≠ printByteCode b := by
  refine ⟨rfl, rfl, rfl, rfl, rfl, rfl, rfl, rfl, rfl, rfl, ?_⟩
  intro a b hab h
  apply hab
  cases a <;> cases b <;> first | rfl | exact absurd h (by decide)

/-- C6, as stated, fails: for the text operand `ERROR` (the variable name
or string literal `ERROR`), `printArgs` returns `ERROR`. -/
theorem printArgs_returns_ERROR :
    printArgs (some (Operand.text "ERROR")) = "ERROR" := rfl

/-- C6 (amended): `printArgs` covers the absent state and every operand
tag: it returns `nullptr` for an absent operand, the text itself for a text
operand, the decimal representation (with a leading `-` when negative) for
an integer or unsigned-count operand, and the `%f` rendering for a
floating-point operand; it returns `ERROR` only for the text operand
`ERROR`. -/
theorem printArgs_cases :
    printArgs none = "nullptr"
      ∧ (∀ s : String, printArgs (some (.text s)) = s)
      ∧ (∀ n : Int, printArgs (some (.int n)) = signedDecimal n)
      ∧ (∀ n : Nat, printArgs (some (.size n)) = decimal n)
      ∧ printArgs none ≠ "ERROR"
      ∧ (∀ n : Int, printArgs (some (.int n)) ≠ "ERROR")
      ∧ (∀ n : Nat, printArgs (some (.size n)) ≠ "ERROR")
      ∧ (∀ s : String, printArgs (some (.text s)) = "ERROR" ↔ s = "ERROR")
      ∧ (∀ x : Double, printArgs (some (.float x)) = to_string x)
      ∧ (∀ x : Double, printArgs (some (.float x)) ≠ "ERROR")
      ∧ printArgs (some (.float (.finite false 3 (-1)))) = "1.500000"
      ∧ printArgs (some (.float (.finite true 1 (-7)))) = "-0.007812"
      ∧ printArgs (some (.float (.nan false))) = "nan"
      ∧ (∀ operand : Option Operand,
          printArgs operand = "ERROR" ↔ operand = some (.text "ERROR")) := by
  have hint : ∀ n : Int, printArgs (some (.int n)) ≠ "ERROR" := by
    intro n
    show toString n ≠ _
    rw [toString_int_eq_signedDecimal]
    exact signedDecimal_ne_ERROR n
  have hsize : ∀ n : Nat, printArgs (some (.size n)) ≠ "ERROR" := by
    intro n
    show toString n ≠ _
    rw [toString_nat_eq_decimal]
    exact decimal_ne_ERROR n
  have hfloat : ∀ x : Double, printArgs (some (.float x)) ≠ "ERROR" :=
    fun x => to_string_ne_ERROR x
  refine ⟨rfl, fun _ => rfl, toString_int_eq_signedDecimal, toString_nat_eq_decimal,
    by decide, hint, hsize, fun _ => Iff.rfl, fun _ => rfl, hfloat, by decide, by decide,
    by decide, ?_⟩
  intro operand
  cases operand with
  | none => exact ⟨fun h => absurd h (by decide), fun h => Option.noConfusion h⟩
  | some o =>
    cases o with
    | text s =>
      constructor
      · intro h
        have hs : s = "ERROR" := h
        rw [hs]
      · intro h
        have hs : s = "ERROR" := Operand.text.inj (Option.some.inj h)
        rw [hs]
        rfl
    | float x =>
      exact ⟨fun h => absurd h (hfloat x), fun h => Operand.noConfusion (Option.some.inj h)⟩
    | int n =>
      exact ⟨fun h => absurd h (hint n), fun h => Operand.noConfusion (Option.some.inj h)⟩
    | size n =>
      exact ⟨fun h => absurd h (hsize n), fun h => Operand.noConfusion (Option.some.inj h)⟩

/-! ## The driver -/

/-- C9: the source text `main` collects is the concatenation, in order, of
the lines before the first line equal to `EOF` (all lines when there is
none), each followed by a line break, whatever follows the sentinel; `main`
returns 1 without constructing the Lexer exactly when that text is empty,
which is exactly when no line precedes the sentinel or the end of input; a
single empty line gives the text of one line break, which is compiled. -/
theorem main_source_collection
    (pipeline : String → Except PipelineError (List Instruction))
    (lines : List String) :
    readSource lines ""
        = String.join (((lines.takeWhile fun l => l ≠ "EOF")).map fun l => l ++ "\n")
      ∧ (∀ rest : List String,
          readSource ((lines.takeWhile fun l => l ≠ "EOF") ++ "EOF" :: rest) ""
            = readSource lines "")
      ∧ readSource (lines.takeWhile fun l => l ≠ "EOF") "" = readSource lines ""
      ∧ (((main pipeline lines).status = 1 ∧ (main pipeline lines).lexerSource = none)
          ↔ readSource lines "" = "")
      ∧ ((main pipeline lines).lexerSource = some (readSource lines "")
          ↔ readSource lines "" ≠ "")
      ∧ (readSource lines "" = "" ↔ (lines.takeWhile fun l => l ≠ "EOF") = [])
      ∧ readSource [""] "" = "\n"
      ∧ (main pipeline [""]).lexerSource = some "\n" := by
  refine ⟨readSource_empty lines, ?_, ?_, ?_, ?_, ?_, by decide, ?_⟩
  · intro rest
    have := beforeSentinel_append lines rest
    rw [readSource_empty, readSource_empty]
    unfold sourceText
    rw [← this]
    rfl
  · have := beforeSentinel_idem lines
    rw [readSource_empty, readSource_empty]
    unfold sourceText
    rw [← this]
    rfl
  · constructor
    · intro h
      by_contra hne
      have := main_of_nonempty pipeline lines hne
      rw [h.2] at this
      exact absurd this (by simp)
    · exact main_of_empty pipeline lines
  · constructor
    · intro h hne
      have := (main_of_empty pipeline lines hne).2
      rw [this] at h
      exact absurd h (by simp)
    · exact main_of_nonempty pipeline lines
  · rw [readSource_empty]
    exact sourceText_eq_empty_iff lines
  · exact main_of_nonempty pipeline [""] (by decide)

/-- C1: on a non-empty source text, when the pipeline raises an error of
any of the five kinds, `main` returns exit status 1 and its standard output
is the prompt and the echo of the source only: no instruction line. -/
theorem main_fail_fast
    (pipeline : String → Except PipelineError (List Instruction))
    (stdin : List String) (e : PipelineError)
    (hsrc : readSource stdin "" ≠ "")
    (herr : pipeline (readSource stdin "") = .error e) :
    (main pipeline stdin).status = 1
      ∧ (main pipeline stdin).cout = promptText ++ echoText (readSource stdin "") := by
  have hne : ¬ ((readSource stdin "").isEmpty = true) := by
    rw [String.isEmpty_iff]; exact hsrc
  simp only [main, hne, herr]
  cases e <;> simp

/-- Witness of C1: a pipeline that raises a lexical error on the source
line `(`. -/
theorem main_fail_fast_witness :
    (main (fun _ => .error (.LexerError "unterminated group")) ["("]).status = 1
      ∧ (main (fun _ => .error (.LexerError "unterminated group")) ["("]).cout
          = promptText ++ echoText (readSource ["("] "") :=
  main_fail_fast (fun _ => .error (.LexerError "unterminated group")) ["("]
    (.LexerError "unterminated group") (by decide) rfl

/-- C2: when the pipeline returns the instruction sequence `m`, `main`
returns exit status 0 and prints, after the prompt and the echo, exactly
`|m|` listing lines in sequence order, line `k` being `k`, ` : `, the
mnemonic of `m[k].op`, ` Args: ` and the rendering of `m[k].operand`; the
scenario-A sequence is listed as the five lines numbered 0 to 4. -/
theorem main_listing
    (pipeline : String → Except PipelineError (List Instruction))
    (stdin : List String) (m : List Instruction)
    (hsrc : readSource stdin "" ≠ "")
    (hok : pipeline (readSource stdin "") = .ok m) :
    (main pipeline stdin).status = 0
      ∧ (∃ lines : List String,
          lines.length = m.length
            ∧ (∀ (k : Nat) (ins : Instruction), m[k]? = some ins →
                lines[k]? = some (toString k ++ " : " ++ printByteCode ins.op
                  ++ " Args: " ++ printArgs ins.operand))
            ∧ (main pipeline stdin).cout
                = promptText ++ echoText (readSource stdin "")
                    ++ String.join (lines.map fun l => l ++ "\n"))
      ∧ printLoop 0 scenarioA
          = String.join (["0 : PUSH_VARIABLE Args: +", "1 : PUSH_VALUE Args: 1",
              "2 : PUSH_VALUE Args: 2", "3 : CALL Args: 2",
              "4 : HALT Args: nullptr"].map fun l => l ++ "\n") := by
  have hne : ¬ ((readSource stdin "").isEmpty = true) := by
    rw [String.isEmpty_iff]; exact hsrc
  refine ⟨by simp [main, hne, hok], ?_, by decide⟩
  refine ⟨(m.enum).map fun p => listingLine p.1 p.2, by simp, ?_, ?_⟩
  · intro k ins hk
    simp [List.enum, List.getElem?_enumFrom, hk, listingLine]
  · simp only [main, hne, hok, printLoop_eq, List.enum, List.map_map]
    rfl

/-- Witness of C2: a pipeline returning the scenario-A sequence for the
source line `(+ 1 2)`. -/
theorem main_listing_witness :
    (main (fun _ => .ok scenarioA) ["(+ 1 2)"]).status = 0
      ∧ (∃ lines : List String,
          lines.length = scenarioA.length
            ∧ (∀ (k : Nat) (ins : Instruction), scenarioA[k]? = some ins →
                lines[k]? = some (toString k ++ " : " ++ printByteCode ins.op
                  ++ " Args: " ++ printArgs ins.operand))
            ∧ (main (fun _ => .ok scenarioA) ["(+ 1 2)"]).cout
                = promptText ++ echoText (readSource ["(+ 1 2)"] "")
                    ++ String.join (lines.map fun l => l ++ "\n"))
      ∧ printLoop 0 scenarioA
          = String.join (["0 : PUSH_VARIABLE Args: +", "1 : PUSH_VALUE Args: 1",
              "2 : PUSH_VALUE Args: 2", "3 : CALL Args: 2",
              "4 : HALT Args: nullptr"].map fun l => l ++ "\n") :=
  main_listing (fun _ => .ok scenarioA) ["(+ 1 2)"] scenarioA (by decide) rfl

/-! ## The tree printer -/

/-- C7, as stated, fails: at depth `2 ^ 30` the product `depth * 2`
overflows `int`, `indent` throws before anything is written, and the two
different atoms `a` and `b` (as a List and a Pair with the same children)
write the same, empty, text. -/
theorem viewAST_overflow_not_injective :
    noLineBreak (.Atom .NAME "a") = true ∧ noLineBreak (.Atom .NAME "b") = true
      ∧ viewAST (.Atom .NAME "a") 1073741824 = .threw ""
      ∧ viewAST (.Atom .NAME "b") 1073741824 = .threw ""
      ∧ (viewAST (.Atom .NAME "a") 1073741824).text
          = (viewAST (.Atom .NAME "b") 1073741824).text
      ∧ Node.Atom .NAME "a" ≠ Node.Atom .NAME "b"
      ∧ (viewAST (.List []) 1073741824).text = (viewAST (.Pair []) 1073741824).text := by
  refine ⟨by decide, by decide, by decide, by decide, by decide, ?_, by decide⟩
  intro h
  injection h with _ hv
  exact absurd hv (by decide)

/-- C7 (amended): among the calls that return, `viewAST` is injective on
trees whose atom values hold no line break: at a depth `d >= 0`, two such
trees for which `viewAST` returns having written the same text are the same
tree, and a List and a Pair with the same children are not written alike.
A call returns when `d` plus the nesting depth of the tree is below
`2 ^ 30`, and only then. -/
theorem viewAST_injective (t1 t2 : Node) (d : Nat) (text : String)
    (hd : d < 2147483648)
    (h1 : noLineBreak t1 = true) (h2 : noLineBreak t2 = true)
    (r1 : viewAST t1 d = .returned text) (r2 : viewAST t2 d = .returned text) :
    t1 = t2
      ∧ (∀ elements : List Node,
          (viewAST (.List elements) d).text ≠ (viewAST (.Pair elements) d).text)
      ∧ (∀ (t : Node) (e : Nat), e + deepest t < 1073741824 →
          ∃ written, viewAST t e = .returned written)
      ∧ (∀ (t : Node) (e : Nat) (written : String), e < 2147483648 →
          viewAST t e = .returned written → e + deepest t < 1073741824) := by
  have e1 := viewAST_returned_eq t1 d text hd r1
  have e2 := viewAST_returned_eq t2 d text hd r2
  have hlt : d < 1073741824 := by
    have := viewAST_returned t1 d text hd r1
    omega
  refine ⟨?_, ?_, fun t e he => ⟨render t e, viewAST_of_bound t e he⟩,
    fun t e written he hr => viewAST_returned t e written he hr⟩
  · have hdata : (render t1 d).data ++ [] = (render t2 d).data ++ [] := by
      rw [← e1, ← e2]
    exact (render_prefix_inj t1 t2 d [] [] h1 h2 hdata).1
  · intro elements he
    obtain ⟨a, ha⟩ := viewAST_list_head elements d hlt
    obtain ⟨b, hb⟩ := viewAST_pair_head elements d hlt
    rw [he, hb] at ha
    have hc := List.append_cancel_left ha
    injection hc with hc _
    exact absurd hc (by decide)

/-- Witness of C7: the tree `(a [1 x])` at depth 3. -/
theorem viewAST_injective_witness :
    Node.List [.Atom .NAME "a", .Pair [.Atom .NUMBER "1", .Atom .STRING "x"]]
        = Node.List [.Atom .NAME "a", .Pair [.Atom .NUMBER "1", .Atom .STRING "x"]]
      ∧ (∀ elements : List Node,
          (viewAST (.List elements) (3 : Nat)).text
            ≠ (viewAST (.Pair elements) (3 : Nat)).text)
      ∧ (∀ (t : Node) (e : Nat), e + deepest t < 1073741824 →
          ∃ written, viewAST t e = .returned written)
      ∧ (∀ (t : Node) (e : Nat) (written : String), e < 2147483648 →
          viewAST t e = .returned written → e + deepest t < 1073741824) :=
  viewAST_injective
    (.List [.Atom .NAME "a", .Pair [.Atom .NUMBER "1", .Atom .STRING "x"]])
    (.List [.Atom .NAME "a", .Pair [.Atom .NUMBER "1", .Atom .STRING "x"]])
    3
    "      (\n        NAME : a\n        [\n          NUMBER : 1\n          STRING : x\n        ]\n      )\n"
    (by decide) (by decide) (by decide) (by decide) (by decide)

/-- C3: scenario A on the modelled pipeline: the source `(+ 1 2)` gives the
tokens SYMBOL `(`, NAME `+`, NUMBER `1`, NUMBER `2`, SYMBOL `)`,
END_OF_INPUT, the tree List[Atom(NAME,+), Atom(NUMBER,1), Atom(NUMBER,2)]
and the instructions PUSH_VARIABLE(+), PUSH_VALUE(1), PUSH_VALUE(2),
CALL(2), HALT; so does the text `main` hands over, which ends with a line
break, and `main` then lists the five instructions and returns 0. -/
theorem scenario_A_compiles :
    tokens "(+ 1 2)"
        = .ok [⟨.SYMBOL, "(", 0⟩, ⟨.NAME, "+", 1⟩, ⟨.NUMBER, "1", 3⟩, ⟨.NUMBER, "2", 5⟩,
            ⟨.SYMBOL, ")", 6⟩, ⟨.END_OF_INPUT, "", 7⟩]
      ∧ parse "(+ 1 2)"
        = .ok [.List [.Atom .NAME "+", .Atom .NUMBER "1", .Atom .NUMBER "2"]]
      ∧ compileProgram [.List [.Atom .NAME "+", .Atom .NUMBER "1", .Atom .NUMBER "2"]]
        = .ok [⟨.PUSH_VARIABLE, some (.text "+")⟩, ⟨.PUSH_VALUE, some (.int 1)⟩,
            ⟨.PUSH_VALUE, some (.int 2)⟩, ⟨.CALL, some (.size 2)⟩, ⟨.HALT, none⟩]
      ∧ compileSource "(+ 1 2)"
        = .ok [⟨.PUSH_VARIABLE, some (.text "+")⟩, ⟨.PUSH_VALUE, some (.int 1)⟩,
            ⟨.PUSH_VALUE, some (.int 2)⟩, ⟨.CALL, some (.size 2)⟩, ⟨.HALT, none⟩]
      ∧ compileSource (readSource ["(+ 1 2)"] "") = .ok scenarioA
      ∧ (main compileSource ["(+ 1 2)"]).status = 0
      ∧ (main compileSource ["(+ 1 2)"]).cout
        = promptText ++ echoText "(+ 1 2)\n" ++ printLoop 0 scenarioA := by
  refine ⟨?_, ?_, ?_, ?_, ?_, ?_, ?_⟩
  · rfl
  · rfl
  · rfl
  · rfl
  · rfl
  · rfl
  · rfl

/-- C4: in every instruction sequence the modelled Compiler returns, each
`JUMP` and `JUMP_IF_FALSE` carries a target that is an index strictly within
the sequence: no placeholder survives. -/
theorem compileProgram_jump_targets (forms : List Node) (m : List Instruction)
    (k : Nat) (ins : Instruction)
    (h : compileProgram forms = .ok m) (hk : m[k]? = some ins)
    (hj : ins.op = .JUMP ∨ ins.op = .JUMP_IF_FALSE) :
    ∃ target, ins.operand = some (.size target) ∧ target < m.length := by
  unfold compileProgram at h
  cases hf : compileForms forms ⟨[], []⟩ with
  | error err => simp [hf] at h
  | ok st =>
    simp only [hf] at h
    have hr := compileForms_resolving forms _ st resolving_init hf
    by_cases hp : (emit st .HALT none).pending = []
    · simp only [hp, if_true, Except.ok.injEq] at h
      subst h
      have hp2 : st.pending = [] := hp
      rcases getElem?_snoc _ _ _ _ hk with h1 | ⟨_, h2⟩
      · rcases hr k ins h1 hj with ⟨_, hmem⟩ | ⟨target, ht, hle⟩
        · rw [hp2] at hmem
          simp at hmem
        · exact ⟨target, ht, by simp [emit]; omega⟩
      · subst h2
        rcases hj with hj | hj <;> simp at hj
    · simp [hp] at h

/-- Witness of C4: the conditional `(if 1 2 3)` compiles to six
instructions; the `JUMP_IF_FALSE` at index 1 carries the target 4. -/
theorem compileProgram_jump_targets_witness :
    ∃ target, (⟨.JUMP_IF_FALSE, some (.size 4)⟩ : Instruction).operand = some (.size target)
      ∧ target < ([⟨.PUSH_VALUE, some (.int 1)⟩, ⟨.JUMP_IF_FALSE, some (.size 4)⟩,
            ⟨.PUSH_VALUE, some (.int 2)⟩, ⟨.JUMP, some (.size 5)⟩,
            ⟨.PUSH_VALUE, some (.int 3)⟩, ⟨.HALT, none⟩] : List Instruction).length :=
  compileProgram_jump_targets
    [.List [.Atom .NAME "if", .Atom .NUMBER "1", .Atom .NUMBER "2", .Atom .NUMBER "3"]]
    [⟨.PUSH_VALUE, some (.int 1)⟩, ⟨.JUMP_IF_FALSE, some (.size 4)⟩,
      ⟨.PUSH_VALUE, some (.int 2)⟩, ⟨.JUMP, some (.size 5)⟩,
      ⟨.PUSH_VALUE, some (.int 3)⟩, ⟨.HALT, none⟩]
    1 ⟨.JUMP_IF_FALSE, some (.size 4)⟩ rfl rfl (Or.inr rfl)

end Moonlisp
